import Mathlib

/-!
Verification development for the TextToSvgPath repository.

The JavaScript sources (`src/text-to-path-converter.js` and the
`UniversalTextShaper` class) are shallowly embedded below: text is a
`List Char`, JavaScript numbers are exact rationals `ℚ`, external
collaborators (opentype.js fonts, the bidi engine, the HarfBuzz shaping
engine) are explicit function parameters, and fallible external calls
return `Except`.
-/

namespace TextToSvgPath

/-- The Hebrew-block test `/[֐-׿]/.test(char)` used in
`renderHarfBuzzSVGPath` (src/text-to-path-converter.js:399). -/
def isHebrewChar (c : Char) : Bool :=
  decide (0x590 ≤ c.toNat ∧ c.toNat ≤ 0x5FF)

/-- JavaScript string indexing `text[charIndex]`; out-of-range access is
modelled with a default character (it never occurs for a valid visual
order). -/
def charAt (text : List Char) (i : ℕ) : Char :=
  text.getD i (Char.ofNat 0)

/-- An opentype.js font as consumed by the converter: `charToGlyph(c)`
followed by `.advanceWidth` is `advanceWidth c` (in font units),
`unitsPerEm` is the font's units-per-em, and
`glyph.getPath(x, y, fontSize).toPathData(3)` is `toPathData c x y fontSize`. -/
structure OTFont where
  advanceWidth : Char → ℚ
  unitsPerEm : ℚ
  toPathData : Char → ℚ → ℚ → ℚ → String

/-- The settings object built by `getSettings()`
(src/text-to-path-converter.js:284). -/
structure Settings where
  text : List Char
  fontSize : ℚ
  fillColor : String
  strokeColor : String
  strokeWidth : ℚ
  letterSpacing : ℚ
  direction : String
  displayMode : String

/-- One element of the array built by `calculateCharacterPositions`
(src/text-to-path-converter.js:301-326); the `glyph` handle is represented
by the character it was obtained from. -/
structure CharPosition where
  char : Char
  x : ℚ
  y : ℚ
  width : ℚ
  visualIndex : ℕ
  originalIndex : ℕ
  deriving DecidableEq, Repr

/-- The loop body of `calculateCharacterPositions`: walk the remaining
visual order with the running cursor `currentX` and the current visual
index `i`. -/
def calcPositionsFrom (font : OTFont) (text : List Char) (fontSize letterSpacing : ℚ) :
    ℚ → ℕ → List ℕ → List CharPosition
  | _, _, [] => []
  | currentX, i, charIndex :: rest =>
    let char := charAt text charIndex
    let glyphWidth := font.advanceWidth char * (fontSize / font.unitsPerEm)
    { char := char, x := currentX, y := fontSize * 1.2, width := glyphWidth,
      visualIndex := i, originalIndex := charIndex } ::
      calcPositionsFrom font text fontSize letterSpacing
        (currentX + glyphWidth + letterSpacing) (i + 1) rest

/-- Model of `calculateCharacterPositions(text, visualOrder, fontSize, letterSpacing)`
(src/text-to-path-converter.js:301-326): cursor starts at 0, visual index
at 0, baseline `y = fontSize * 1.2`. -/
def calculateCharacterPositions (font : OTFont) (text : List Char)
    (visualOrder : List ℕ) (fontSize letterSpacing : ℚ) : List CharPosition :=
  calcPositionsFrom font text fontSize letterSpacing 0 0 visualOrder

/-- The scaled advance of the character at logical index `charIndex`, as
computed inside the positioner loop. -/
def scaledAdvance (font : OTFont) (text : List Char) (fontSize : ℚ)
    (charIndex : ℕ) : ℚ :=
  font.advanceWidth (charAt text charIndex) * (fontSize / font.unitsPerEm)

/-- The typographic width of a laid-out line: `x` of the last positioned
glyph plus its advance width (the quantity used at
src/text-to-path-converter.js:567 before clamping). Empty layout gives 0. -/
def typographicWidth (positions : List CharPosition) : ℚ :=
  match positions.getLast? with
  | none => 0
  | some p => p.x + p.width

/-! ### Bidi reordering (src/text-to-path-converter.js:484-511, 435-459) -/

/-- One reorder pass of the loop
`reorderSegments.forEach(([start, end]) => { const segment =
visualOrder.slice(start, end + 1).reverse();
visualOrder.splice(start, end - start + 1, ...segment); })`:
the working sub-array `[start .. end]` of the current array is replaced by
its reverse. -/
def applySegment (l : List ℕ) (s e : ℕ) : List ℕ :=
  l.take s ++ ((l.drop s).take (e + 1 - s)).reverse ++ l.drop (e + 1)

/-- The visual order built in `renderSVG` / `processTextForBidi`: start
from the identity array over `[0 .. n)` and apply every reorder segment in
the order given by the engine. -/
def computeVisualOrder (n : ℕ) (segs : List (ℕ × ℕ)) : List ℕ :=
  segs.foldl (fun l p => applySegment l p.1 p.2) (List.range n)

/-- The external bidi engine as used by the converter: the combined
`getEmbeddingLevels` / `getReorderSegments` calls, which either return the
reorder segment list or throw. -/
def BidiEngine : Type :=
  List Char → String → Except String (List (ℕ × ℕ))

/-- Model of `processTextForBidi(text, direction)`
(src/text-to-path-converter.js:435-459): with no bidi processor, or when
the engine throws, the identity order is returned; otherwise the segments
are applied to the identity array. -/
def processTextForBidi (bidiProcessor : Option BidiEngine)
    (text : List Char) (direction : String) : List ℕ :=
  match bidiProcessor with
  | none => List.range text.length
  | some engine =>
    match engine text direction with
    | .error _ => List.range text.length
    | .ok segs => computeVisualOrder text.length segs

/-- The visual text `visualOrder.map(i => text[i]).join('')`. -/
def visualTextOf (text : List Char) (visualOrder : List ℕ) : List Char :=
  visualOrder.map (charAt text)

/-! ### UniversalTextShaper.applyBidi, both variants -/

/-- Model of `applyBidi(text, paragraphDirection)` of the bidi-js-string variant
(src/unnamed/part_001:130-141): `'ltr'` returns the text unchanged,
otherwise the external `bidi(text, {dir})` call produces the reordered
string; the engine is the parameter `bidiFn`. -/
def applyBidi (bidiFn : String → List Char → List Char)
    (text : List Char) (paragraphDirection : String) : List Char :=
  if paragraphDirection = "ltr" then text
  else if paragraphDirection = "rtl" then bidiFn "rtl" text
  else bidiFn "auto" text

/-- Model of `applyBidi(text, paragraphDirection)` of the segment-based variant
(src/unnamed/part_000:130-162): `'ltr'` returns the text unchanged;
otherwise the engine's reorder segments build a visual order (errors fall
back to the original text). -/
def applyBidiSegments (engine : BidiEngine)
    (text : List Char) (paragraphDirection : String) : List Char :=
  if paragraphDirection = "ltr" then text
  else
    let direction := if paragraphDirection = "rtl" then "rtl" else "auto"
    match engine text direction with
    | .error _ => text
    | .ok segs => visualTextOf text (computeVisualOrder text.length segs)

/-! ### UniversalTextShaper: shaping (src/unnamed/part_000, part_001) -/

/-- One entry of `buffer.json()`: the raw glyph record `{g, cl, ax, ay,
dx, dy}` returned by the HarfBuzz wrapper. -/
structure RawGlyph where
  g : ℕ
  cl : ℕ
  ax : ℚ
  ay : ℚ
  dx : ℚ
  dy : ℚ
  deriving DecidableEq, Repr

/-- Glyph outline extents, as exposed by `font.glyphToJson(g)` when the
glyph has them (`pathJson.xMin !== undefined`). -/
structure Extents where
  xMin : ℚ
  xMax : ℚ
  yMin : ℚ
  yMax : ℚ
  deriving DecidableEq, Repr

/-- The HarfBuzz shaping engine with a font already bound, as consumed by
`shapeLine`: `shapeJson line` is the result of creating a buffer, adding
the line, shaping, and reading `buffer.json()`; `glyphToPath` /
`glyphToJson` are the per-glyph outline queries; `upem` is `face.upem`.
(`font.setScale` is part of how the concrete engine produces these
numbers and is absorbed into `shapeJson`.) -/
structure ShapeEngine where
  upem : ℚ
  shapeJson : List Char → List RawGlyph
  glyphToPath : ℕ → String
  glyphToJson : ℕ → Option Extents

/-- A normalized shaped glyph as built inside `shapeLine`
(src/unnamed/part_001:178-195). With `returnPaths = false` the `path` /
`pathJson` fields are absent in JS; absence is modelled by `""` / `none`,
the values the only consumers (`if (glyph.path)`,
`glyph.pathJson && glyph.pathJson.xMin !== undefined`) treat identically. -/
structure ShapedGlyph where
  glyphId : ℕ
  cluster : ℕ
  advanceX : ℚ
  advanceY : ℚ
  offsetX : ℚ
  offsetY : ℚ
  path : String
  pathJson : Option Extents
  deriving DecidableEq, Repr

/-- The record returned by `shapeLine` (src/unnamed/part_001:206-213). -/
structure ShapedLine where
  text : List Char
  glyphs : List ShapedGlyph
  width : ℚ
  height : ℚ
  x : ℚ
  y : ℚ
  deriving DecidableEq, Repr

/-- Model of `shapeLine(text, options)` (src/unnamed/part_001:146-214): shape the
line, normalize the glyph records, convert the summed advance to actual
units via `totalWidth * fontSize / 1000`, and report `height: fontSize`. -/
def shapeLine (eng : ShapeEngine) (text : List Char) (fontSize x y : ℚ)
    (returnPaths : Bool) : ShapedLine :=
  let shapedGlyphs := eng.shapeJson text
  let glyphs := shapedGlyphs.map fun glyph =>
    { glyphId := glyph.g, cluster := glyph.cl, advanceX := glyph.ax,
      advanceY := glyph.ay, offsetX := glyph.dx, offsetY := glyph.dy,
      path := if returnPaths then eng.glyphToPath glyph.g else "",
      pathJson := if returnPaths then eng.glyphToJson glyph.g else none }
  let totalWidth := shapedGlyphs.foldl (fun sum glyph => sum + glyph.ax) 0
  { text := text, glyphs := glyphs, width := totalWidth * fontSize / 1000,
    height := fontSize, x := x, y := y }

/-- JavaScript `string.split('\n')` on the character-list model:
`"".split` gives `[""]`, a trailing newline yields a trailing empty
string. -/
def splitOnNl : List Char → List (List Char)
  | [] => [[]]
  | c :: rest =>
    let r := splitOnNl rest
    if c = '\n' then [] :: r
    else
      match r with
      | [] => [[c]]
      | h :: t => (c :: h) :: t

/-- A glyph of `combineLines`' flat `allGlyphs` array, carrying its
absolute position. -/
structure PositionedGlyphS extends ShapedGlyph where
  absoluteX : ℚ
  absoluteY : ℚ
  deriving DecidableEq, Repr

/-- An entry of `combineLines`' `svgElements` array (the `transform`
string is determined by `x`/`y` and is not duplicated). -/
structure SvgElem where
  path : String
  x : ℚ
  y : ℚ
  deriving DecidableEq, Repr

/-- The object returned by `combineLines` / `shapeText`. -/
structure ShapingResultS where
  text : List Char
  direction : String
  lines : List ShapedLine
  totalWidth : ℚ
  totalHeight : ℚ
  svgElements : List SvgElem
  glyphs : List PositionedGlyphS

/-- The inner loop of `combineLines` over one line's glyphs
(src/unnamed/part_001:239-266): accumulate `svgElements` (only for glyphs
with a non-empty path) and `allGlyphs`, advancing `currentX` by
`glyph.advanceX`. State: (currentX, svgElements, allGlyphs). -/
def combineGlyphStep (line : ShapedLine)
    (st : ℚ × List SvgElem × List PositionedGlyphS) (glyph : ShapedGlyph) :
    ℚ × List SvgElem × List PositionedGlyphS :=
  let currentX := st.1
  let finalX := currentX + glyph.offsetX
  let finalY := line.y - glyph.offsetY
  let elems := if glyph.path ≠ "" then
      st.2.1 ++ [{ path := glyph.path, x := finalX, y := finalY }]
    else st.2.1
  let glyphs := st.2.2 ++
    [{ toShapedGlyph := glyph, absoluteX := finalX, absoluteY := finalY }]
  (currentX + glyph.advanceX, elems, glyphs)

/-- Model of `combineLines(shapedLines, processedText, direction)`
(src/unnamed/part_001:219-277): empty input yields the all-zero result;
otherwise `totalWidth` is the maximum line width, and
`totalHeight = shapedLines.length * shapedLines[0].height`. -/
def combineLines (shapedLines : List ShapedLine) (processedText : List Char)
    (direction : String) : ShapingResultS :=
  match shapedLines with
  | [] =>
    { text := processedText, direction := direction, lines := [],
      totalWidth := 0, totalHeight := 0, svgElements := [], glyphs := [] }
  | l :: ls =>
    let totalWidth := (ls.map (·.width)).foldl max l.width
    let totalHeight := ((l :: ls).length : ℚ) * l.height
    let acc := (l :: ls).foldl
      (fun (a : List SvgElem × List PositionedGlyphS) line =>
        let r := line.glyphs.foldl (combineGlyphStep line) (line.x, a.1, a.2)
        (r.2.1, r.2.2))
      ([], [])
    { text := processedText, direction := direction, lines := l :: ls,
      totalWidth := totalWidth, totalHeight := totalHeight,
      svgElements := acc.1, glyphs := acc.2 }

/-- Model of `shapeText(text, options)` (src/unnamed/part_001:81-125): apply bidi,
split into lines, shape each non-empty line at
`lineY = y + i * fontSize * lineHeight` (the index `i` counts empty lines
too), and combine. -/
def shapeText (eng : ShapeEngine) (bidiFn : String → List Char → List Char)
    (text : List Char) (fontSize : ℚ) (paragraphDirection : String)
    (x y lineHeight : ℚ) (returnPaths : Bool) : ShapingResultS :=
  let processedText := applyBidi bidiFn text paragraphDirection
  let lines := splitOnNl processedText
  let shapedLines := lines.enum.filterMap fun p =>
    if p.2.isEmpty then none
    else some (shapeLine eng p.2 fontSize x (y + p.1 * fontSize * lineHeight)
      returnPaths)
  combineLines shapedLines processedText paragraphDirection

/-! ### calculateActualBounds (src/unnamed/part_000:362-419)

The JS code seeds the running bounds with `±Infinity`; numbers are
modelled by `JNum`, rationals extended with the IEEE special values, with
`Math.min` / `Math.max` / `-` following IEEE semantics. -/

/-- A JavaScript number: a finite rational, `±Infinity`, or `NaN`. -/
inductive JNum where
  | nan : JNum
  | pinf : JNum
  | ninf : JNum
  | fin (q : ℚ) : JNum
  deriving DecidableEq, Repr

namespace JNum

/-- JavaScript `Math.min` (NaN-propagating; `-Infinity` absorbs, `+Infinity` is
neutral). -/
def jmin : JNum → JNum → JNum
  | nan, _ => nan
  | _, nan => nan
  | ninf, _ => ninf
  | _, ninf => ninf
  | pinf, b => b
  | a, pinf => a
  | fin a, fin b => fin (min a b)

/-- JavaScript `Math.max`. -/
def jmax : JNum → JNum → JNum
  | nan, _ => nan
  | _, nan => nan
  | pinf, _ => pinf
  | _, pinf => pinf
  | ninf, b => b
  | a, ninf => a
  | fin a, fin b => fin (max a b)

/-- IEEE subtraction (`Infinity - Infinity = NaN`). -/
def jsub : JNum → JNum → JNum
  | nan, _ => nan
  | _, nan => nan
  | pinf, pinf => nan
  | pinf, _ => pinf
  | ninf, ninf => nan
  | ninf, _ => ninf
  | fin _, pinf => ninf
  | fin _, ninf => pinf
  | fin a, fin b => fin (a - b)

/-- Whether the value is an ordinary finite number. -/
def isFinite : JNum → Bool
  | fin _ => true
  | _ => false

end JNum

/-- The four running bound accumulators of `calculateActualBounds`. -/
structure RunningBounds where
  minX : JNum
  maxX : JNum
  minY : JNum
  maxY : JNum
  deriving DecidableEq, Repr

/-- The record returned by `calculateActualBounds`. -/
structure ActualBounds where
  x : JNum
  y : JNum
  width : JNum
  height : JNum
  minX : JNum
  maxX : JNum
  minY : JNum
  maxY : JNum
  deriving DecidableEq, Repr

/-- The per-glyph update of `calculateActualBounds`
(src/unnamed/part_000:377-401): with outline extents the scaled extent
corners are folded in, otherwise the advance-width / estimated
ascent-descent box; in both branches `currentX` advances by
`glyph.advanceX`. State: (bounds, currentX). -/
def boundsGlyphStep (line : ShapedLine) (st : RunningBounds × ℚ)
    (glyph : ShapedGlyph) : RunningBounds × ℚ :=
  let b := st.1
  let currentX := st.2
  let b' :=
    match glyph.pathJson with
    | some e =>
      { minX := b.minX.jmin (.fin (currentX + glyph.offsetX + e.xMin)),
        maxX := b.maxX.jmax (.fin (currentX + glyph.offsetX + e.xMax)),
        minY := b.minY.jmin (.fin (line.y - glyph.offsetY - e.yMax)),
        maxY := b.maxY.jmax (.fin (line.y - glyph.offsetY - e.yMin)) }
    | none =>
      let glyphX := currentX + glyph.offsetX
      let glyphY := line.y - glyph.offsetY
      { minX := b.minX.jmin (.fin glyphX),
        maxX := b.maxX.jmax (.fin (glyphX + glyph.advanceX)),
        minY := b.minY.jmin (.fin (glyphY - line.height * 0.8)),
        maxY := b.maxY.jmax (.fin (glyphY + line.height * 0.2)) }
  (b', currentX + glyph.advanceX)

/-- The per-line pass of `calculateActualBounds`: `currentX` restarts at
`line.x` for every line. -/
def boundsLineStep (b : RunningBounds) (line : ShapedLine) : RunningBounds :=
  (line.glyphs.foldl (boundsGlyphStep line) (b, line.x)).1

/-- Model of `calculateActualBounds(shapingResult)` (src/unnamed/part_000:362-419):
empty `glyphs` returns the zero box immediately; otherwise the lines are
scanned from the `±Infinity` seeds, and a still-infinite `minX` falls back
to the typographic box. -/
def calculateActualBounds (r : ShapingResultS) : ActualBounds :=
  if r.glyphs.isEmpty then
    { x := .fin 0, y := .fin 0, width := .fin 0, height := .fin 0,
      minX := .fin 0, maxX := .fin 0, minY := .fin 0, maxY := .fin 0 }
  else
    let b := r.lines.foldl boundsLineStep
      { minX := .pinf, maxX := .ninf, minY := .pinf, maxY := .ninf }
    if b.minX = .pinf then
      { x := .fin 0, y := .fin 0, width := .fin r.totalWidth,
        height := .fin r.totalHeight, minX := .fin 0,
        maxX := .fin r.totalWidth, minY := .fin 0,
        maxY := .fin r.totalHeight }
    else
      { x := b.minX, y := b.minY, width := b.maxX.jsub b.minX,
        height := b.maxY.jsub b.minY, minX := b.minX, maxX := b.maxX,
        minY := b.minY, maxY := b.maxY }

/-! ### shapeLine resource lifecycle (src/unnamed/part_001:146-214,
src/unnamed/part_000:167-288)

`shapeLine` creates `blob`, `face`, `font` and `buffer` and calls the four
`destroy()` methods in straight-line code after shaping. The trace below
records, for each way the external calls can go, which objects get created
and which `destroy()` calls actually execute under JavaScript exception
propagation (an exception transfers control out of `shapeLine`, skipping
the remaining statements — there is no try/finally). -/

structure ShapeLineTrace where
  /-- Holds `true` when `shapeLine` returns normally, `false` when it exits by
  throwing. -/
  returnedNormally : Bool
  created : List String
  destroyed : List String
  deriving DecidableEq, Repr

/-- The resource trace of one `shapeLine` call. `fontLoaded` is whether
`this.fonts.get(fontScript) || this.fallbackFont` produced font data;
`shapeSucceeds` is whether `this.hb.shape(font, buffer, features)`
returns without throwing; `pathsSucceed` is whether the
`font.glyphToPath` / `font.glyphToJson` calls in the glyph-mapping loop
all return without throwing (in part_001 they are not wrapped in
try/catch). -/
def shapeLineResourceTrace (fontLoaded shapeSucceeds pathsSucceed : Bool) :
    ShapeLineTrace :=
  if !fontLoaded then
    -- `throw new Error('No font loaded...')` before any object is created.
    { returnedNormally := false, created := [], destroyed := [] }
  else if !shapeSucceeds then
    -- blob/face/font/buffer exist; the exception from `shape` propagates
    -- past the `destroy()` statements.
    { returnedNormally := false,
      created := ["blob", "face", "font", "buffer"], destroyed := [] }
  else if !pathsSucceed then
    -- same: the exception from the glyph loop skips the cleanup.
    { returnedNormally := false,
      created := ["blob", "face", "font", "buffer"], destroyed := [] }
  else
    { returnedNormally := true,
      created := ["blob", "face", "font", "buffer"],
      destroyed := ["buffer", "font", "face", "blob"] }

/-! ### renderHarfBuzzSVGPath (src/text-to-path-converter.js:355-432) -/

/-- JavaScript `string.trim()` (whitespace at either end removed). -/
def jsTrim (l : List Char) : List Char :=
  ((l.dropWhile Char.isWhitespace).reverse.dropWhile Char.isWhitespace).reverse

/-- The truthy-and-not-blank test `pathData && pathData.trim() !== ''`
applied to a path-data string (a Lean `String` is its character list). -/
def strTrimNonEmpty (s : String) : Bool :=
  !(jsTrim s.data).isEmpty

/-- One `<path>` element pushed by the glyph loop, recorded with the
character and the `(x, y)` arguments handed to `glyph.getPath`. -/
structure GlyphElem where
  char : Char
  x : ℚ
  y : ℚ
  d : String
  deriving DecidableEq, Repr

/-- The body of the glyph loop (src/text-to-path-converter.js:393-423).
State: (currentX, glyphElements). A Hebrew character with no Hebrew font
advances the cursor by `fontSize * 0.6` and emits nothing (`continue`);
otherwise the chosen font's outline is emitted when non-blank and the
cursor advances by the scaled advance width. -/
def hbStep (text : List Char) (fontSize : ℚ) (latinFont : OTFont)
    (hebrewFont : Option OTFont) (y : ℚ) (st : ℚ × List GlyphElem)
    (charIndex : ℕ) : ℚ × List GlyphElem :=
  let char := charAt text charIndex
  let fontChoice : Option OTFont :=
    if isHebrewChar char then hebrewFont else some latinFont
  match fontChoice with
  | none => (st.1 + fontSize * 0.6, st.2)
  | some currentFont =>
    let pathData := currentFont.toPathData char st.1 y fontSize
    let elems := if strTrimNonEmpty pathData then
        st.2 ++ [{ char := char, x := st.1, y := y, d := pathData }]
      else st.2
    let advance := currentFont.advanceWidth char *
      (fontSize / currentFont.unitsPerEm)
    (st.1 + advance, elems)

/-- The possible outcomes of `renderHarfBuzzSVGPath`. -/
inductive HBRender where
  | notInitialized : HBRender
  | emptyPlaceholder : HBRender
  | glyphs (elems : List GlyphElem) (finalX : ℚ) : HBRender
  deriving DecidableEq, Repr

/-- Model of `renderHarfBuzzSVGPath(settings)`
(src/text-to-path-converter.js:355-432): placeholder when the shaper is
missing or the text is blank; otherwise walk the visual order from
`processTextForBidi` with the cursor starting at `x = 10` and baseline
`y = fontSize * 0.8`. (The `paragraphDirection` / `fontScript` locals are
dead and omitted; the function's catch-all never fires in this pure
model because `processTextForBidi` already absorbs engine failures.) -/
def renderHarfBuzzSVGPath (shaperReady : Bool) (latinFont : OTFont)
    (hebrewFont : Option OTFont) (bidiProcessor : Option BidiEngine)
    (settings : Settings) : HBRender :=
  if !shaperReady then .notInitialized
  else if settings.text.isEmpty || (jsTrim settings.text).isEmpty then
    .emptyPlaceholder
  else
    let result := processTextForBidi bidiProcessor settings.text
      settings.direction
    let y := settings.fontSize * 0.8
    let st := result.foldl
      (hbStep settings.text settings.fontSize latinFont hebrewFont y)
      (10, [])
    .glyphs st.2 st.1

/-! ### renderSVG (src/text-to-path-converter.js:461-586) -/

/-- The `universalShaper` global: an initialized shaper is its engine
together with the bidi reordering function its `applyBidi` consults.
(Font lookup inside `shapeLine` is absorbed into the engine: the app
loads both scripts with the latin font as fallback, so
`this.fonts.get(fontScript) || this.fallbackFont` always succeeds.) -/
structure ShaperInst where
  eng : ShapeEngine
  bidiFn : String → List Char → List Char

/-- The module-level collaborator handles set by the async loaders. -/
structure RenderDeps where
  font : Option OTFont
  hebrewFont : Option OTFont
  bidiProcessor : Option BidiEngine
  universalShaper : Option ShaperInst

/-- The `svgContent` produced by each display mode. -/
inductive SvgContent where
  | pathMode (positions : List CharPosition) : SvgContent
  | textMode (positions : List CharPosition) : SvgContent
  | entireMode (baselineY : ℚ) (direction : String) : SvgContent
  | harfbuzzNotReady : SvgContent
  | harfbuzzRendered (hb : HBRender) : SvgContent
  deriving DecidableEq, Repr

/-- What `renderSVG` leaves in the preview area. -/
inductive RenderOutcome where
  | fontNotLoaded : RenderOutcome
  | bidiNotAvailable : RenderOutcome
  | cleared : RenderOutcome
  | bidiError (msg : String) : RenderOutcome
  | svg (totalWidth maxHeight : ℚ) (content : SvgContent) : RenderOutcome
  deriving DecidableEq, Repr

/-- Model of `renderSVG()` (src/text-to-path-converter.js:461-586). The bidi
engine is invoked once here (`getEmbeddingLevels` + `getReorderSegments`
merged into one fallible call); an engine exception lands in the `catch`
that clears the preview and aborts with an error message. -/
def renderSVG (deps : RenderDeps) (settings : Settings) : RenderOutcome :=
  match deps.font with
  | none => .fontNotLoaded
  | some latinFont =>
    match deps.bidiProcessor with
    | none => .bidiNotAvailable
    | some bidiEng =>
      if settings.text.isEmpty then .cleared
      else
        match bidiEng settings.text settings.direction with
        | .error msg => .bidiError msg
        | .ok segs =>
          let visualOrder := computeVisualOrder settings.text.length segs
          let positions :=
            if settings.displayMode = "svg" ∨ settings.displayMode = "text"
            then calculateCharacterPositions latinFont settings.text
              visualOrder settings.fontSize settings.letterSpacing
            else []
          if settings.displayMode = "harfbuzz" then
            match deps.universalShaper with
            | none => .svg 400 100 .harfbuzzNotReady
            | some sh =>
              let paragraphDirection :=
                if settings.direction = "rtl" then "rtl"
                else if settings.direction = "ltr" then "ltr" else "auto"
              let res := shapeText sh.eng sh.bidiFn settings.text
                settings.fontSize paragraphDirection 0 0 1.2 true
              let totalWidth := max (res.totalWidth + 20) 100
              let maxHeight := max (res.totalHeight + 20)
                (settings.fontSize * 1.5)
              .svg totalWidth maxHeight
                (.harfbuzzRendered (renderHarfBuzzSVGPath true latinFont
                  deps.hebrewFont deps.bidiProcessor settings))
          else if settings.displayMode = "entire" then
            .svg (max ((settings.text.length : ℚ) * settings.fontSize * 0.6)
                200)
              (settings.fontSize * 1.5)
              (.entireMode (settings.fontSize * 1.2)
                (if settings.direction = "rtl" then "rtl" else "ltr"))
          else
            let totalWidth :=
              match positions.getLast? with
              | none => max 1 1
              | some p => max (p.x + p.width) 1
            .svg totalWidth (settings.fontSize * 1.5)
              (if settings.displayMode = "svg" then .pathMode positions
                else .textMode positions)

/-! ### Concrete collaborator instances used to exercise the embedding -/

/-- A fixed-metrics opentype.js font: every glyph 500 font units wide, a
1000-unit em, and a non-blank one-token outline. -/
def demoFont : OTFont :=
  { advanceWidth := fun _ => 500, unitsPerEm := 1000,
    toPathData := fun _ _ _ _ => "P" }

/-- A shaping engine mapping every character to one 500-unit glyph. -/
def demoEngine : ShapeEngine :=
  { upem := 1000,
    shapeJson := fun t => t.map fun _ => ⟨1, 0, 500, 0, 0, 0⟩,
    glyphToPath := fun _ => "M0 0Z", glyphToJson := fun _ => none }

/-- An initialized shaper whose bidi pass is the identity. -/
def demoShaper : ShaperInst := { eng := demoEngine, bidiFn := fun _ t => t }

/-- A bidi engine that finds nothing to reorder. -/
def okBidi : BidiEngine := fun _ _ => .ok []

/-- A bidi engine that always throws. -/
def throwingBidi : BidiEngine := fun _ _ => .error "boom"

/-- Fully loaded collaborators. -/
def demoDeps : RenderDeps :=
  { font := some demoFont, hebrewFont := some demoFont,
    bidiProcessor := some okBidi, universalShaper := some demoShaper }

/-- Same collaborators, but the bidi engine throws. -/
def depsThrowingBidi : RenderDeps :=
  { demoDeps with bidiProcessor := some throwingBidi }

/-- Scenario D settings: `fontSize = 30`, `text = "A"`, harfbuzz display
mode. -/
def demoSettings : Settings :=
  { text := ['A'], fontSize := 30, fillColor := "#000000",
    strokeColor := "none", strokeWidth := 0, letterSpacing := 0,
    direction := "ltr", displayMode := "harfbuzz" }

/-- The invariant maintained by the bounds scan of
`calculateActualBounds`: the accumulators are either still exactly the
`±Infinity` seeds or all four already finite. -/
def BoundsInv (b : RunningBounds) : Prop :=
  b = { minX := .pinf, maxX := .ninf, minY := .pinf, maxY := .ninf } ∨
  (b.minX.isFinite ∧ b.maxX.isFinite ∧ b.minY.isFinite ∧ b.maxY.isFinite)

/-! ## Theorems -/

/-- C9: for every input text, applying the bidirectional pre-processing
with `paragraphDirection = 'ltr'` returns the input text unchanged, in
both `applyBidi` variants, whatever the external bidi engine does (so the
engine is never consulted). -/
theorem applyBidi_ltr_identity :
    (∀ (bidiFn : String → List Char → List Char) (text : List Char),
        applyBidi bidiFn text "ltr" = text) ∧
    (∀ (engine : BidiEngine) (text : List Char),
        applyBidiSegments engine text "ltr" = text) :=
  ⟨fun _ _ => rfl, fun _ _ => rfl⟩

/-- C4: `shapeLine`'s `destroy()` calls sit in straight-line code after
shaping, so when `hb.shape` (or the glyph-path loop) throws after the
blob/face/font/buffer were created, none of the four objects is destroyed;
only the normal return destroys them all. -/
theorem shapeLine_exception_skips_destroy :
    (shapeLineResourceTrace true false true).created =
      ["blob", "face", "font", "buffer"] ∧
    (shapeLineResourceTrace true false true).destroyed = [] ∧
    (shapeLineResourceTrace true true false).destroyed = [] ∧
    (shapeLineResourceTrace true true true).destroyed =
      ["buffer", "font", "face", "blob"] :=
  ⟨rfl, rfl, rfl, rfl⟩

/-- C2 counterexample: with a bidi engine that throws, `renderSVG` does
not fall back to the identity order — it aborts the render with an error
message instead of producing SVG output. -/
theorem renderSVG_bidi_exception_aborts :
    renderSVG depsThrowingBidi { demoSettings with displayMode := "svg" } =
      .bidiError "boom" :=
  rfl

/-- C2 (amended): inside `processTextForBidi` an engine exception is
caught and the identity visual order is returned, so the shaping-path
render proceeds. -/
theorem processTextForBidi_engine_error_identity
    (engine : BidiEngine) (text : List Char) (direction msg : String)
    (h : engine text direction = .error msg) :
    processTextForBidi (some engine) text direction =
      List.range text.length := by
  simp [processTextForBidi, h]

theorem processTextForBidi_engine_error_identity_witness :
    processTextForBidi (some throwingBidi) ['A'] "ltr" = List.range 1 :=
  processTextForBidi_engine_error_identity throwingBidi ['A'] "ltr" "boom" rfl

/-- C1: at fontSize 30 and text "A" the harfbuzz display mode produces a
canvas height of 50 (`max(totalHeight + 20, fontSize * 1.5)`) and places
glyphs on the baseline `y = fontSize * 0.8 = 24`, while the positioner
modes produce canvas height 45 and baseline 36 — contradicting the
claimed mode-independent `fontSize * 1.5` height and shared baseline. -/
theorem renderSVG_harfbuzz_frame_divergence :
    renderSVG demoDeps demoSettings =
      .svg 100 50 (.harfbuzzRendered
        (.glyphs [{ char := 'A', x := 10, y := 24, d := "P" }] 25)) ∧
    renderSVG demoDeps { demoSettings with displayMode := "svg" } =
      .svg 15 45 (.pathMode
        [{ char := 'A', x := 0, y := 36, width := 15,
           visualIndex := 0, originalIndex := 0 }]) ∧
    (50 : ℚ) ≠ demoSettings.fontSize * 1.5 ∧
    (24 : ℚ) ≠ demoSettings.fontSize * 1.2 := by
  refine ⟨?_, ?_, ?_, ?_⟩
  · simp +decide [renderSVG, demoDeps, demoSettings, demoFont, demoShaper,
      demoEngine, okBidi, computeVisualOrder, applySegment, shapeText,
      applyBidi, splitOnNl, shapeLine, combineLines, combineGlyphStep,
      renderHarfBuzzSVGPath, processTextForBidi, hbStep, charAt,
      isHebrewChar, jsTrim, strTrimNonEmpty, List.enum, List.enumFrom,
      List.range_succ]
    norm_num
  · simp +decide [renderSVG, demoDeps, demoSettings, demoFont, okBidi,
      computeVisualOrder, applySegment, calculateCharacterPositions,
      calcPositionsFrom, charAt, List.range_succ]
    norm_num
  · simp only [demoSettings]
    norm_num
  · simp only [demoSettings]
    norm_num

/-- C7: in the shaping-adapter render path, a Hebrew character without a
loaded Hebrew font advances the cursor by the placeholder `fontSize * 0.6`,
emits no outline element, and the walk continues with the remaining
characters; concretely, rendering "שA" with no Hebrew font skips the ש and
still renders the A. -/
theorem hebrew_missing_font_placeholder :
    (∀ (text : List Char) (fontSize : ℚ) (latinFont : OTFont) (y : ℚ)
        (st : ℚ × List GlyphElem) (charIndex : ℕ) (rest : List ℕ),
        isHebrewChar (charAt text charIndex) = true →
        hbStep text fontSize latinFont none y st charIndex =
          (st.1 + fontSize * 0.6, st.2) ∧
        (charIndex :: rest).foldl (hbStep text fontSize latinFont none y) st =
          rest.foldl (hbStep text fontSize latinFont none y)
            (st.1 + fontSize * 0.6, st.2)) ∧
    renderHarfBuzzSVGPath true demoFont none (some okBidi)
        { demoSettings with text := ['ש', 'A'] } =
      .glyphs [{ char := 'A', x := 28, y := 24, d := "P" }] 43 := by
  refine ⟨fun text fontSize latinFont y st charIndex rest h => ⟨?_, ?_⟩, ?_⟩
  · simp [hbStep, h]
  · simp [List.foldl_cons, hbStep, h]
  · simp +decide [renderHarfBuzzSVGPath, demoFont, okBidi, demoSettings,
      processTextForBidi, computeVisualOrder, applySegment, hbStep, charAt,
      isHebrewChar, jsTrim, strTrimNonEmpty, List.range_succ]
    norm_num

theorem hebrew_missing_font_placeholder_witness :
    hbStep ['ש'] 30 demoFont none 24 (10, []) 0 = (10 + 30 * 0.6, []) ∧
    [0, 0].foldl (hbStep ['ש'] 30 demoFont none 24) (10, []) =
      [0].foldl (hbStep ['ש'] 30 demoFont none 24) (10 + 30 * 0.6, []) :=
  hebrew_missing_font_placeholder.1 ['ש'] 30 demoFont 24 (10, []) 0 [0]
    (by decide)

/-- Reversing the working sub-array `[s .. e]` permutes the array. -/
theorem applySegment_perm (l : List ℕ) (s e : ℕ) (h : s ≤ e) :
    (applySegment l s e).Perm l := by
  have h1 : (l.drop s).drop (e + 1 - s) = l.drop (e + 1) := by
    rw [List.drop_drop]
    congr 1
    omega
  have h2 : l.take s ++ ((l.drop s).take (e + 1 - s) ++ l.drop (e + 1)) = l := by
    conv_rhs => rw [← List.take_append_drop s l]
    congr 1
    rw [← h1, List.take_append_drop]
  have h3 : applySegment l s e =
      l.take s ++ (((l.drop s).take (e + 1 - s)).reverse ++ l.drop (e + 1)) := by
    simp [applySegment]
  have perm1 : (l.take s ++ (((l.drop s).take (e + 1 - s)).reverse ++
      l.drop (e + 1))).Perm
      (l.take s ++ ((l.drop s).take (e + 1 - s) ++ l.drop (e + 1))) :=
    List.Perm.append_left _
      (List.Perm.append (List.reverse_perm _) (List.Perm.refl _))
  rw [h2] at perm1
  rw [h3]
  exact perm1

/-- Folding reorder segments over any starting array yields a permutation
of it. -/
theorem foldl_applySegment_perm (segs : List (ℕ × ℕ)) :
    ∀ l : List ℕ, (∀ p ∈ segs, p.1 ≤ p.2) →
      (segs.foldl (fun l p => applySegment l p.1 p.2) l).Perm l := by
  induction segs with
  | nil =>
    intro l _
    simp
  | cons p rest ih =>
    intro l h
    simp only [List.foldl_cons]
    exact (ih _ fun q hq => h q (List.mem_cons_of_mem _ hq)).trans
      (applySegment_perm l p.1 p.2 (h p (List.mem_cons_self _ _)))

/-- C6: for any text length `n` and any in-range reorder segments, the
visual order built by reversing each working sub-array in turn is a
permutation of `[0 .. n)`; in particular the single segment `(0, 3)` over
4 characters yields `[3, 2, 1, 0]`. -/
theorem computeVisualOrder_permutation :
    (∀ (n : ℕ) (segs : List (ℕ × ℕ)),
        (∀ p ∈ segs, p.1 ≤ p.2 ∧ p.2 < n) →
        (computeVisualOrder n segs).Perm (List.range n)) ∧
    computeVisualOrder 4 [(0, 3)] = [3, 2, 1, 0] := by
  constructor
  · intro n segs h
    exact foldl_applySegment_perm segs (List.range n) fun p hp => (h p hp).1
  · decide

theorem computeVisualOrder_permutation_witness :
    (computeVisualOrder 3 [(0, 2), (0, 1)]).Perm (List.range 3) :=
  computeVisualOrder_permutation.1 3 [(0, 2), (0, 1)] (by decide)

/-- The positioner loop produces one entry per visual index. -/
theorem calcPositionsFrom_length (font : OTFont) (text : List Char)
    (fs ls : ℚ) :
    ∀ (vo : List ℕ) (curX : ℚ) (i0 : ℕ),
      (calcPositionsFrom font text fs ls curX i0 vo).length = vo.length := by
  intro vo
  induction vo with
  | nil =>
    intro curX i0
    rfl
  | cons ci rest ih =>
    intro curX i0
    simp [calcPositionsFrom, ih]

/-- Entry `i` of the positioner loop started at cursor `curX` and visual
index `i0`. -/
theorem calcPositionsFrom_getElem (font : OTFont) (text : List Char)
    (fs ls : ℚ) :
    ∀ (vo : List ℕ) (curX : ℚ) (i0 i : ℕ), i < vo.length →
      (calcPositionsFrom font text fs ls curX i0 vo)[i]? =
        some { char := charAt text (vo.getD i 0),
               x := curX +
                 ((vo.take i).map (scaledAdvance font text fs)).sum + i * ls,
               y := fs * 1.2,
               width := scaledAdvance font text fs (vo.getD i 0),
               visualIndex := i0 + i, originalIndex := vo.getD i 0 } := by
  intro vo
  induction vo with
  | nil =>
    intro curX i0 i hi
    simp at hi
  | cons ci rest ih =>
    intro curX i0 i hi
    cases i with
    | zero =>
      simp [calcPositionsFrom, scaledAdvance]
    | succ j =>
      have hj : j < rest.length := by simpa using hi
      simp only [calcPositionsFrom, List.getElem?_cons_succ]
      rw [ih _ _ j hj]
      simp [scaledAdvance, CharPosition.mk.injEq]
      constructor
      · ring
      · omega

/-- C5: the character positioner walks the visual order with a cursor
starting at 0; every glyph gets baseline `y = fontSize * 1.2`, glyph `i`
gets advance `advanceWidth * fontSize / unitsPerEm` and
`x = (sum of the previous advances) + i * letterSpacing` — i.e. the
cursor moves by the glyph advance plus the letter spacing after each
glyph. -/
theorem calculateCharacterPositions_spec (font : OTFont) (text : List Char)
    (visualOrder : List ℕ) (fontSize letterSpacing : ℚ) :
    (calculateCharacterPositions font text visualOrder fontSize
        letterSpacing).length = visualOrder.length ∧
    ∀ i, i < visualOrder.length →
      (calculateCharacterPositions font text visualOrder fontSize
          letterSpacing)[i]? =
        some { char := charAt text (visualOrder.getD i 0),
               x := ((visualOrder.take i).map
                   (scaledAdvance font text fontSize)).sum +
                 i * letterSpacing,
               y := fontSize * 1.2,
               width := scaledAdvance font text fontSize
                 (visualOrder.getD i 0),
               visualIndex := i, originalIndex := visualOrder.getD i 0 } := by
  constructor
  · exact calcPositionsFrom_length font text fontSize letterSpacing
      visualOrder 0 0
  · intro i hi
    simpa using calcPositionsFrom_getElem font text fontSize letterSpacing
      visualOrder 0 0 i hi

theorem calculateCharacterPositions_spec_witness :
    (calculateCharacterPositions demoFont ['A', 'B'] [1, 0] 30 2).length =
      2 ∧
    (calculateCharacterPositions demoFont ['A', 'B'] [1, 0] 30 2)[1]? =
      some { char := charAt ['A', 'B'] ([1, 0].getD 1 0),
             x := (([1, 0].take 1).map
                 (scaledAdvance demoFont ['A', 'B'] 30)).sum +
               ((1 : ℕ) : ℚ) * 2,
             y := 30 * 1.2,
             width := scaledAdvance demoFont ['A', 'B'] 30 ([1, 0].getD 1 0),
             visualIndex := 1, originalIndex := [1, 0].getD 1 0 } :=
  ⟨(calculateCharacterPositions_spec demoFont ['A', 'B'] [1, 0] 30 2).1,
   (calculateCharacterPositions_spec demoFont ['A', 'B'] [1, 0] 30 2).2 1
     (by decide)⟩

/-- The typographic width ignores leading positions. -/
theorem typographicWidth_cons (p : CharPosition) (l : List CharPosition)
    (h : l ≠ []) : typographicWidth (p :: l) = typographicWidth l := by
  cases l with
  | nil => exact absurd rfl h
  | cons b t =>
    unfold typographicWidth
    rw [List.getLast?_cons_cons]

/-- Closed form of the typographic width: the advance sum plus
`(n - 1) * letterSpacing`, offset by the starting cursor. -/
theorem typographicWidth_calcPositionsFrom (font : OTFont) (text : List Char)
    (fs ls : ℚ) :
    ∀ (vo : List ℕ) (curX : ℚ) (i0 : ℕ), vo ≠ [] →
      typographicWidth (calcPositionsFrom font text fs ls curX i0 vo) =
        curX + (vo.map (scaledAdvance font text fs)).sum +
          ((vo.length - 1 : ℕ) : ℚ) * ls := by
  intro vo
  induction vo with
  | nil =>
    intro curX i0 h
    exact absurd rfl h
  | cons ci rest ih =>
    intro curX i0 _
    cases rest with
    | nil =>
      simp [calcPositionsFrom, typographicWidth, scaledAdvance]
    | cons c2 r2 =>
      have hne : calcPositionsFrom font text fs ls
          (curX + font.advanceWidth (charAt text ci) * (fs / font.unitsPerEm)
            + ls) (i0 + 1) (c2 :: r2) ≠ [] := by
        simp [calcPositionsFrom]
      rw [show calcPositionsFrom font text fs ls curX i0 (ci :: c2 :: r2) =
          { char := charAt text ci, x := curX, y := fs * 1.2,
            width := font.advanceWidth (charAt text ci) *
              (fs / font.unitsPerEm),
            visualIndex := i0, originalIndex := ci } ::
          calcPositionsFrom font text fs ls
            (curX + font.advanceWidth (charAt text ci) *
              (fs / font.unitsPerEm) + ls) (i0 + 1) (c2 :: r2) from rfl]
      rw [typographicWidth_cons _ _ hne]
      rw [ih _ _ (List.cons_ne_nil c2 r2)]
      simp only [List.map_cons, List.sum_cons, List.length_cons,
        Nat.add_sub_cancel, scaledAdvance]
      push_cast
      ring

/-- C3 counterexample: for a single-character text the typographic width
does not depend on the letter spacing at all, so it is not strictly
increasing in it. -/
theorem typographicWidth_single_char_constant :
    (0 : ℚ) < 1 ∧ (['A'] : List Char) ≠ [] ∧
    typographicWidth (calculateCharacterPositions demoFont ['A'] [0] 30 0) =
      typographicWidth
        (calculateCharacterPositions demoFont ['A'] [0] 30 1) ∧
    ¬ typographicWidth (calculateCharacterPositions demoFont ['A'] [0] 30 0) <
      typographicWidth
        (calculateCharacterPositions demoFont ['A'] [0] 30 1) := by
  refine ⟨by norm_num, by simp, ?_, ?_⟩
  · simp [calculateCharacterPositions, calcPositionsFrom, typographicWidth,
      demoFont]
  · simp [calculateCharacterPositions, calcPositionsFrom, typographicWidth,
      demoFont]

/-- C3 (amended): with at least two glyphs in the visual order, the
typographic width is strictly increasing in the letter spacing (for one
glyph it is constant). -/
theorem typographicWidth_letterSpacing_strictMono (font : OTFont)
    (text : List Char) (visualOrder : List ℕ) (fontSize : ℚ)
    (h2 : 2 ≤ visualOrder.length) (ls₁ ls₂ : ℚ) (hls : ls₁ < ls₂) :
    typographicWidth
        (calculateCharacterPositions font text visualOrder fontSize ls₁) <
      typographicWidth
        (calculateCharacterPositions font text visualOrder fontSize ls₂) := by
  have hne : visualOrder ≠ [] := by
    intro h
    rw [h] at h2
    simp at h2
  unfold calculateCharacterPositions
  rw [typographicWidth_calcPositionsFrom font text fontSize ls₁ visualOrder
      0 0 hne,
    typographicWidth_calcPositionsFrom font text fontSize ls₂ visualOrder
      0 0 hne]
  have hpos : (0 : ℚ) < ((visualOrder.length - 1 : ℕ) : ℚ) := by
    have h1 : 1 ≤ visualOrder.length - 1 := by omega
    have : (1 : ℚ) ≤ ((visualOrder.length - 1 : ℕ) : ℚ) := by
      exact_mod_cast h1
    linarith
  have := (mul_lt_mul_left hpos).2 hls
  linarith

theorem typographicWidth_letterSpacing_strictMono_witness :
    typographicWidth
        (calculateCharacterPositions demoFont ['A', 'B'] [0, 1] 30 0) <
      typographicWidth
        (calculateCharacterPositions demoFont ['A', 'B'] [0, 1] 30 1) :=
  typographicWidth_letterSpacing_strictMono demoFont ['A', 'B'] [0, 1] 30
    (by decide) 0 1 (by norm_num)

/-- Folding a finite value into a min-accumulator that is `+Infinity` or
finite yields a finite value. -/
theorem jmin_fin_isFinite (a : JNum) (q : ℚ)
    (h : a = .pinf ∨ a.isFinite = true) :
    (a.jmin (.fin q)).isFinite = true := by
  rcases h with h | h
  · subst h
    rfl
  · cases a <;> simp_all [JNum.jmin, JNum.isFinite]

/-- Folding a finite value into a max-accumulator that is `-Infinity` or
finite yields a finite value. -/
theorem jmax_fin_isFinite (a : JNum) (q : ℚ)
    (h : a = .ninf ∨ a.isFinite = true) :
    (a.jmax (.fin q)).isFinite = true := by
  rcases h with h | h
  · subst h
    rfl
  · cases a <;> simp_all [JNum.jmax, JNum.isFinite]

/-- Subtracting finite values stays finite. -/
theorem jsub_isFinite (a b : JNum) (ha : a.isFinite = true)
    (hb : b.isFinite = true) : (a.jsub b).isFinite = true := by
  cases a <;> cases b <;> simp_all [JNum.jsub, JNum.isFinite]

/-- Each accumulator of an invariant-satisfying state is either its seed
or finite. -/
theorem boundsInv_fields {b : RunningBounds} (h : BoundsInv b) :
    (b.minX = .pinf ∨ b.minX.isFinite = true) ∧
    (b.maxX = .ninf ∨ b.maxX.isFinite = true) ∧
    (b.minY = .pinf ∨ b.minY.isFinite = true) ∧
    (b.maxY = .ninf ∨ b.maxY.isFinite = true) := by
  rcases h with h | ⟨h1, h2, h3, h4⟩
  · subst h
    exact ⟨Or.inl rfl, Or.inl rfl, Or.inl rfl, Or.inl rfl⟩
  · exact ⟨Or.inr h1, Or.inr h2, Or.inr h3, Or.inr h4⟩

/-- One glyph update preserves the bounds invariant (and in fact lands in
the all-finite branch). -/
theorem boundsGlyphStep_inv (line : ShapedLine) (st : RunningBounds × ℚ)
    (g : ShapedGlyph) (h : BoundsInv st.1) :
    BoundsInv (boundsGlyphStep line st g).1 := by
  obtain ⟨f1, f2, f3, f4⟩ := boundsInv_fields h
  right
  cases hp : g.pathJson with
  | none =>
    simp only [boundsGlyphStep, hp]
    exact ⟨jmin_fin_isFinite _ _ f1, jmax_fin_isFinite _ _ f2,
      jmin_fin_isFinite _ _ f3, jmax_fin_isFinite _ _ f4⟩
  | some e =>
    simp only [boundsGlyphStep, hp]
    exact ⟨jmin_fin_isFinite _ _ f1, jmax_fin_isFinite _ _ f2,
      jmin_fin_isFinite _ _ f3, jmax_fin_isFinite _ _ f4⟩

/-- The glyph scan of one line preserves the bounds invariant. -/
theorem foldl_boundsGlyphStep_inv (line : ShapedLine) :
    ∀ (gs : List ShapedGlyph) (st : RunningBounds × ℚ), BoundsInv st.1 →
      BoundsInv ((gs.foldl (boundsGlyphStep line) st).1) := by
  intro gs
  induction gs with
  | nil =>
    intro st h
    exact h
  | cons g rest ih =>
    intro st h
    exact ih _ (boundsGlyphStep_inv line st g h)

/-- The line scan preserves the bounds invariant. -/
theorem foldl_boundsLineStep_inv :
    ∀ (lines : List ShapedLine) (b : RunningBounds), BoundsInv b →
      BoundsInv (lines.foldl boundsLineStep b) := by
  intro lines
  induction lines with
  | nil =>
    intro b h
    exact h
  | cons line rest ih =>
    intro b h
    exact ih _ (foldl_boundsGlyphStep_inv line line.glyphs (b, line.x) h)

/-- C8: for every shaping result — including an empty glyph list and
glyphs without outline extents — every component of the actual-bounds
record is a finite number, never `±Infinity` (or `NaN`). -/
theorem calculateActualBounds_finite (r : ShapingResultS) :
    (calculateActualBounds r).x.isFinite = true ∧
    (calculateActualBounds r).y.isFinite = true ∧
    (calculateActualBounds r).width.isFinite = true ∧
    (calculateActualBounds r).height.isFinite = true ∧
    (calculateActualBounds r).minX.isFinite = true ∧
    (calculateActualBounds r).maxX.isFinite = true ∧
    (calculateActualBounds r).minY.isFinite = true ∧
    (calculateActualBounds r).maxY.isFinite = true := by
  have hb : BoundsInv (r.lines.foldl boundsLineStep
      { minX := .pinf, maxX := .ninf, minY := .pinf, maxY := .ninf }) :=
    foldl_boundsLineStep_inv r.lines _ (Or.inl rfl)
  unfold calculateActualBounds
  by_cases hg : r.glyphs.isEmpty
  · simp [hg, JNum.isFinite]
  · simp only [hg, Bool.false_eq_true, if_false]
    by_cases hmin : (r.lines.foldl boundsLineStep
        { minX := .pinf, maxX := .ninf, minY := .pinf, maxY := .ninf }).minX
        = .pinf
    · simp [hmin, JNum.isFinite]
    · rcases hb with hseed | ⟨h1, h2, h3, h4⟩
      · exact absurd (by rw [hseed]) hmin
      · simp only [hmin, if_false]
        exact ⟨h1, h3, jsub_isFinite _ _ h2 h1, jsub_isFinite _ _ h4 h3,
          h1, h2, h3, h4⟩

/-- The line loop of `shapeText` shapes exactly the non-empty lines. -/
theorem shapedLines_length (eng : ShapeEngine) (fontSize x y lineHeight : ℚ)
    (returnPaths : Bool) :
    ∀ (lines : List (List Char)) (n : ℕ),
      ((List.enumFrom n lines).filterMap fun p =>
          if p.2 = [] then none
          else some (shapeLine eng p.2 fontSize x
            (y + p.1 * fontSize * lineHeight) returnPaths)).length =
        (lines.filter fun l => !l.isEmpty).length := by
  intro lines
  induction lines with
  | nil =>
    intro n
    rfl
  | cons h t ih =>
    intro n
    by_cases hh : h = [] <;>
      simp [List.enumFrom, List.filterMap_cons, hh, List.filter_cons, ih,
        List.isEmpty_iff]

/-- Every line shaped by the `shapeText` loop reports `height = fontSize`. -/
theorem shapedLines_height (eng : ShapeEngine) (fontSize x y lineHeight : ℚ)
    (returnPaths : Bool) (lines : List (ℕ × List Char)) :
    ∀ l ∈ lines.filterMap fun p =>
        if p.2 = [] then none
        else some (shapeLine eng p.2 fontSize x
          (y + p.1 * fontSize * lineHeight) returnPaths),
      l.height = fontSize := by
  intro l hl
  rw [List.mem_filterMap] at hl
  obtain ⟨p, _, hp⟩ := hl
  by_cases he : p.2 = []
  · simp [he] at hp
  · simp only [he, if_false, Option.some.injEq] at hp
    rw [← hp]
    rfl

/-- Lemma: `combineLines` reports `totalHeight = (number of lines) * fontSize`
when every line has that height. -/
theorem combineLines_totalHeight (sl : List ShapedLine) (pt : List Char)
    (dir : String) (fs : ℚ) (h : ∀ l ∈ sl, l.height = fs) :
    (combineLines sl pt dir).totalHeight = sl.length * fs := by
  cases sl with
  | nil =>
    simp [combineLines]
  | cons l ls =>
    simp only [combineLines]
    rw [h l (List.mem_cons_self l ls)]

/-- Splitting an all-newline text yields only empty lines. -/
theorem splitOnNl_all_newline :
    ∀ (l : List Char), (∀ c ∈ l, c = '\n') → ∀ x ∈ splitOnNl l, x = [] := by
  intro l
  induction l with
  | nil =>
    intro _ x hx
    simp [splitOnNl] at hx
    exact hx
  | cons c rest ih =>
    intro h x hx
    have hc : c = '\n' := h c (List.mem_cons_self c rest)
    subst hc
    simp [splitOnNl] at hx
    rcases hx with hx | hx
    · exact hx
    · exact ih (fun d hd => h d (List.mem_cons_of_mem _ hd)) x hx

/-- With only empty lines the `shapeText` loop shapes nothing. -/
theorem filterMap_empty_lines (eng : ShapeEngine)
    (fontSize x y lineHeight : ℚ) (returnPaths : Bool) :
    ∀ (lines : List (List Char)) (n : ℕ), (∀ l ∈ lines, l = []) →
      (List.enumFrom n lines).filterMap (fun p =>
          if p.2 = [] then none
          else some (shapeLine eng p.2 fontSize x
            (y + p.1 * fontSize * lineHeight) returnPaths)) = [] := by
  intro lines
  induction lines with
  | nil =>
    intro n _
    rfl
  | cons h t ih =>
    intro n hall
    have hh : h = [] := hall h (List.mem_cons_self h t)
    subst hh
    simp only [List.enumFrom, List.filterMap_cons, if_pos rfl]
    exact ih (n + 1) fun l hl => hall l (List.mem_cons_of_mem _ hl)

/-- A bidi pass that permutes the text keeps an all-newline text
all-newline. -/
theorem applyBidi_all_newline (bidiFn : String → List Char → List Char)
    (text : List Char) (dir : String)
    (hperm : ∀ d t, (bidiFn d t).Perm t) (h : ∀ c ∈ text, c = '\n') :
    ∀ c ∈ applyBidi bidiFn text dir, c = '\n' := by
  unfold applyBidi
  split_ifs
  · exact h
  · intro c hc
    exact h c ((hperm "rtl" text).mem_iff.mp hc)
  · intro c hc
    exact h c ((hperm "auto" text).mem_iff.mp hc)

/-- C10: `shapeText` reports `totalHeight = (number of non-empty lines of
the processed text) * fontSize`, independently of the `lineHeight`
option; an all-newline text (with a character-permuting bidi pass) yields
`totalWidth = 0` and `totalHeight = 0`. -/
theorem shapeText_totalHeight_lines :
    (∀ (eng : ShapeEngine) (bidiFn : String → List Char → List Char)
        (text : List Char) (fontSize : ℚ) (paragraphDirection : String)
        (x y lineHeight : ℚ) (returnPaths : Bool),
        (shapeText eng bidiFn text fontSize paragraphDirection x y
            lineHeight returnPaths).totalHeight =
          ((splitOnNl (applyBidi bidiFn text paragraphDirection)).filter
            fun l => !l.isEmpty).length * fontSize) ∧
    (∀ (eng : ShapeEngine) (bidiFn : String → List Char → List Char)
        (text : List Char) (fontSize : ℚ) (paragraphDirection : String)
        (x y lineHeight : ℚ) (returnPaths : Bool),
        (∀ d t, (bidiFn d t).Perm t) → (∀ c ∈ text, c = '\n') →
        (shapeText eng bidiFn text fontSize paragraphDirection x y
            lineHeight returnPaths).totalWidth = 0 ∧
        (shapeText eng bidiFn text fontSize paragraphDirection x y
            lineHeight returnPaths).totalHeight = 0) := by
  constructor
  · intro eng bidiFn text fontSize paragraphDirection x y lineHeight
      returnPaths
    unfold shapeText
    simp only [List.isEmpty_eq_true, List.enum]
    rw [combineLines_totalHeight _ _ _ fontSize
      (shapedLines_height eng fontSize x y lineHeight returnPaths
        (List.enumFrom 0 (splitOnNl (applyBidi bidiFn text
          paragraphDirection))))]
    rw [shapedLines_length eng fontSize x y lineHeight returnPaths _ 0]
  · intro eng bidiFn text fontSize paragraphDirection x y lineHeight
      returnPaths hperm hnl
    have hall : ∀ x_1 ∈ splitOnNl (applyBidi bidiFn text paragraphDirection),
        x_1 = [] :=
      splitOnNl_all_newline _
        (applyBidi_all_newline bidiFn text paragraphDirection hperm hnl)
    unfold shapeText
    simp only [List.isEmpty_eq_true, List.enum]
    rw [filterMap_empty_lines eng fontSize x y lineHeight returnPaths _ 0
      hall]
    exact ⟨rfl, rfl⟩

theorem shapeText_totalHeight_lines_witness :
    (shapeText demoEngine (fun _ t => t) ['\n', '\n'] 30 "auto" 0 0 1.2
        true).totalWidth = 0 ∧
    (shapeText demoEngine (fun _ t => t) ['\n', '\n'] 30 "auto" 0 0 1.2
        true).totalHeight = 0 :=
  shapeText_totalHeight_lines.2 demoEngine (fun _ t => t) ['\n', '\n'] 30
    "auto" 0 0 1.2 true (fun _ t => List.Perm.refl t) (by decide)

end TextToSvgPath
